import Mathlib

set_option maxRecDepth 40000

/-!
Verification of the qs2rdf converter (src/qs2rdf.py): a line-oriented
QuickStatements-to-RDF translator.  The Python source is shallowly embedded
below: every definition mirrors a construct of the source file, with the
source line numbers given in the doc comments.  Strings are modelled by
`String` / `List Char`; Python's `re` patterns are modelled by bespoke
decidable matchers implementing the same languages (with `\d` and `\w`
modelled over their ASCII fragments, as all claim-relevant tokens are ASCII);
the random UUIDs of `uuid4()` are modelled by an oracle stream of strings
threaded through a run state; the module-level cumulative `sha1` object is
modelled by the list of bytes fed to it so far, together with a full
executable SHA-1 (FIPS 180-4) over `Nat` arithmetic mod 2^32.
Python exceptions escaping a function are modelled by an explicit
`crash` result.
-/

/-! ## Basic character and list helpers -/

/-- ASCII decimal digit, the fragment of Python's `\d` relevant here. -/
def isDig (c : Char) : Bool := 48 ≤ c.toNat && c.toNat ≤ 57

/-- ASCII word character, the fragment of Python's `\w` relevant here. -/
def isWordChar (c : Char) : Bool := c.isAlphanum || c == '_'

/-- Characters stripped by Python's `str.strip()` with no argument
(ASCII whitespace fragment). -/
def isPySpace (c : Char) : Bool :=
  c == ' ' || c == '\t' || c == '\n' || c == '\r' || c == '\x0b' || c == '\x0c'

/-- Python `str.strip()`: drop leading and trailing whitespace. -/
def pyStripWs (cs : List Char) : List Char :=
  ((cs.dropWhile isPySpace).reverse.dropWhile isPySpace).reverse

/-- Python `str.strip(ch)` for a single character: drop ALL leading and
trailing occurrences of `ch` (not just one layer). -/
def stripChar (ch : Char) (cs : List Char) : List Char :=
  ((cs.dropWhile (· == ch)).reverse.dropWhile (· == ch)).reverse

/-- Python `str.split(sep)` for a one-character separator `sep`
(`''.split(sep) = ['']`, empty pieces kept). -/
def splitChar (sep : Char) : List Char → List (List Char)
  | [] => [[]]
  | c :: rest =>
    let r := splitChar sep rest
    if c == sep then [] :: r
    else
      match r with
      | h :: t => (c :: h) :: t
      | [] => [[c]]

/-- Python `str.split(sep, 1)` restricted to the case used by the source
(`time[1:].split('-', 1)` under a regex guaranteeing a separator):
split at the FIRST occurrence of `sep`, `none` when `sep` is absent. -/
def splitFirst (sep : Char) : List Char → Option (List Char × List Char)
  | [] => none
  | c :: rest =>
    if c == sep then some ([], rest)
    else (splitFirst sep rest).map (fun p => (c :: p.1, p.2))

/-- Python `str.startswith` for a one-character needle. -/
def headIs (s : String) (c : Char) : Bool :=
  match s.data with
  | x :: _ => x == c
  | [] => false

/-- Python `int(...)` on a string of decimal digits. -/
def digitsToNat (cs : List Char) : Nat :=
  cs.foldl (fun a c => 10 * a + (c.toNat - 48)) 0

/-- The decimal digit character for `n < 10`. -/
def digitChar (n : Nat) : Char := Char.ofNat (48 + n)

/-- Decimal digits of `n`, least significant first; `fuel` bounds the
recursion (any `fuel > n` is enough). -/
def decDigitsRev : Nat → Nat → List Char
  | 0, _ => []
  | fuel + 1, n =>
    if n < 10 then [digitChar n]
    else digitChar (n % 10) :: decDigitsRev fuel (n / 10)

/-- Decimal representation of `n`, as printed by Python's `%d`. -/
def decRepr (n : Nat) : List Char := (decDigitsRev (n + 1) n).reverse

/-- Python `'%04d' % n` for `n ≥ 0`: decimal digits of `n`, left-padded
with zeros to a minimum width of 4 (src/qs2rdf.py line 149). -/
def pad4 (n : Nat) : String :=
  String.mk (List.replicate (4 - (decRepr n).length) '0' ++ decRepr n)

/-! ## SHA-1 (FIPS 180-4), used by `mint_reference_node`
(src/qs2rdf.py lines 9, 14, 191-194) -/

/-- UTF-8 encoding of one code point (Python `str.encode('utf-8')`). -/
def utf8Char (c : Nat) : List Nat :=
  if c < 0x80 then [c]
  else if c < 0x800 then [0xC0 + c / 0x40, 0x80 + c % 0x40]
  else if c < 0x10000 then
    [0xE0 + c / 0x1000, 0x80 + c / 0x40 % 0x40, 0x80 + c % 0x40]
  else
    [0xF0 + c / 0x40000, 0x80 + c / 0x1000 % 0x40, 0x80 + c / 0x40 % 0x40,
     0x80 + c % 0x40]

/-- UTF-8 bytes of a string (Python `str.encode('utf-8')`). -/
def utf8Encode (s : String) : List Nat := s.data.flatMap (fun c => utf8Char c.toNat)

/-- Left-rotation of a 32-bit word. -/
def rotl (k x : Nat) : Nat := ((x <<< k) % 2 ^ 32) ||| (x >>> (32 - k))

/-- Big-endian 8-byte encoding of the bit length. -/
def be64 (n : Nat) : List Nat :=
  [n >>> 56 % 256, n >>> 48 % 256, n >>> 40 % 256, n >>> 32 % 256,
   n >>> 24 % 256, n >>> 16 % 256, n >>> 8 % 256, n % 256]

/-- SHA-1 message padding: `0x80`, zeros to 56 mod 64, 64-bit bit length. -/
def sha1Pad (msg : List Nat) : List Nat :=
  msg ++ 0x80 :: List.replicate ((120 - (msg.length + 1) % 64) % 64) 0
      ++ be64 (msg.length * 8)

/-- Split the padded message into 64-byte blocks (`fuel ≥ length`). -/
def chunks64 : Nat → List Nat → List (List Nat)
  | 0, _ => []
  | _ + 1, [] => []
  | fuel + 1, bs => bs.take 64 :: chunks64 fuel (bs.drop 64)

/-- Big-endian 32-bit words of a list of bytes. -/
def words32 : List Nat → List Nat
  | b0 :: b1 :: b2 :: b3 :: rest =>
    (((b0 * 256 + b1) * 256 + b2) * 256 + b3) :: words32 rest
  | _ => []

/-- Message-schedule extension: prepend `count` extended words to the
reversed word list `acc` (newest first), then un-reverse. -/
def sha1Extend : Nat → List Nat → List Nat
  | 0, acc => acc.reverse
  | count + 1, acc =>
    let x := rotl 1 ((acc.getD 2 0) ^^^ (acc.getD 7 0) ^^^ (acc.getD 13 0) ^^^ (acc.getD 15 0))
    sha1Extend count (x :: acc)

/-- One SHA-1 compression round per list entry `(i, w_i)`. -/
def sha1Rounds : List (Nat × Nat) → Nat × Nat × Nat × Nat × Nat → Nat × Nat × Nat × Nat × Nat
  | [], s => s
  | (i, wi) :: rest, (a, b, c, d, e) =>
    let f :=
      if i < 20 then (b &&& c) ||| ((b ^^^ 0xFFFFFFFF) &&& d)
      else if i < 40 then b ^^^ c ^^^ d
      else if i < 60 then (b &&& c) ||| (b &&& d) ||| (c &&& d)
      else b ^^^ c ^^^ d
    let k :=
      if i < 20 then 0x5A827999
      else if i < 40 then 0x6ED9EBA1
      else if i < 60 then 0x8F1BBCDC
      else 0xCA62C1D6
    let temp := (rotl 5 a + f + e + k + wi) % 2 ^ 32
    sha1Rounds rest (temp, a, rotl 30 b, c, d)

/-- Process one 64-byte block against the running hash state. -/
def sha1Block (hs : Nat × Nat × Nat × Nat × Nat) (block : List Nat) :
    Nat × Nat × Nat × Nat × Nat :=
  let w := sha1Extend 64 (words32 block).reverse
  let (h0, h1, h2, h3, h4) := hs
  let (a, b, c, d, e) := sha1Rounds ((List.range 80).zip w) (h0, h1, h2, h3, h4)
  ((h0 + a) % 2 ^ 32, (h1 + b) % 2 ^ 32, (h2 + c) % 2 ^ 32, (h3 + d) % 2 ^ 32,
   (h4 + e) % 2 ^ 32)

/-- Lower-case hexadecimal digit. -/
def hexChar (n : Nat) : Char :=
  if n < 10 then digitChar n else Char.ofNat (87 + n)

/-- Eight hex characters of a 32-bit word, most significant first. -/
def wordHex (x : Nat) : List Char :=
  [hexChar (x >>> 28 % 16), hexChar (x >>> 24 % 16), hexChar (x >>> 20 % 16),
   hexChar (x >>> 16 % 16), hexChar (x >>> 12 % 16), hexChar (x >>> 8 % 16),
   hexChar (x >>> 4 % 16), hexChar (x % 16)]

/-- `hashlib.sha1(msg).hexdigest()`: the SHA-1 digest of a byte list,
printed as 40 lower-case hex characters. -/
def sha1Hex (msg : List Nat) : String :=
  let padded := sha1Pad msg
  let (h0, h1, h2, h3, h4) :=
    (chunks64 (padded.length + 1) padded).foldl sha1Block
      (0x67452301, 0xEFCDAB89, 0x98BADCFE, 0x10325476, 0xC3D2E1F0)
  String.mk (wordHex h0 ++ wordHex h1 ++ wordHex h2 ++ wordHex h3 ++ wordHex h4)

/-! ## RDF terms and namespaces (src/qs2rdf.py lines 16-26) -/

/-- An rdflib term as constructed by the source: `URIRef` or `Literal`
(with optional language tag or datatype URI). -/
inductive Term
  | uri (s : String)
  | literal (lex : String) (lang : Option String) (datatype : Option String)
deriving DecidableEq, Repr

/-- The underlying Python string of an rdflib term (`URIRef` and `Literal`
are `str` subclasses: the URI, resp. the lexical form). -/
def Term.toPyStr : Term → String
  | .uri s => s
  | .literal lex _ _ => lex

/-- Python truthiness of an rdflib term: both `URIRef` and `Literal`
subclass `str` and define no `__bool__`, so `if not value` tests emptiness
of the underlying string. -/
def Term.truthy (t : Term) : Bool := !t.toPyStr.data.isEmpty

def BASE_URI : String := "http://www.wikidata.org/"
def WD : String := BASE_URI ++ "entity/"
def WDS : String := WD ++ "statement/"
def WDREF : String := BASE_URI ++ "reference/"
def P : String := BASE_URI ++ "prop/"
def PS : String := P ++ "statement/"
def PQ : String := P ++ "qualifier/"
def PR : String := P ++ "reference/"
def PROV : String := "http://www.w3.org/ns/prov#"
def GEO : String := "http://www.opengis.net/ont/geosparql#"

def XSD_dateTime : String := "http://www.w3.org/2001/XMLSchema#dateTime"
def XSD_decimal : String := "http://www.w3.org/2001/XMLSchema#decimal"

/-! ## The value data-type matchers (src/qs2rdf.py lines 28-34)

Each matcher implements the language of the corresponding anchored Python
regular expression (`re.match` with `^...$` patterns). -/

/-- `ITEM = re.compile(r'^Q\d+$')` (line 29). -/
def ITEM_match (s : String) : Bool :=
  match s.data with
  | c :: ds => c == 'Q' && !ds.isEmpty && ds.all isDig
  | [] => false

/-- `PROPERTY = re.compile(r'^P\d+$')` (line 30). -/
def PROPERTY_match (s : String) : Bool :=
  match s.data with
  | c :: ds => c == 'P' && !ds.isEmpty && ds.all isDig
  | [] => false

/-- The fixed-shape tail of the TIME pattern after the year digits:
`-\d\d-\d\dT\d\d:\d\d:\d\dZ\/\d+$`. -/
def timeTail : List Char → Bool
  | '-' :: m1 :: m2 :: '-' :: d1 :: d2 :: 'T' :: h1 :: h2 :: ':' :: n1 :: n2 :: ':'
      :: s1 :: s2 :: 'Z' :: '/' :: prec =>
    isDig m1 && isDig m2 && isDig d1 && isDig d2 && isDig h1 && isDig h2 &&
    isDig n1 && isDig n2 && isDig s1 && isDig s2 && !prec.isEmpty && prec.all isDig
  | _ => false

/-- `TIME = re.compile(r'^[+-]\d+-\d\d-\d\dT\d\d:\d\d:\d\dZ\/\d+$')` (line 31).
The greedy `\d+` before a non-digit `-` is the maximal digit run. -/
def TIME_match (s : String) : Bool :=
  match s.data with
  | c :: rest =>
    (c == '+' || c == '-') && !(rest.takeWhile isDig).isEmpty &&
      timeTail (rest.dropWhile isDig)
  | [] => false

/-- An optional leading `[+\-]?` sign. -/
def dropSign : List Char → List Char
  | c :: r => if c == '+' || c == '-' then r else c :: r
  | [] => []

/-- Does `r` belong to the language `\d+.\d+`, where `.` is Python's
any-character-but-newline?  Decided by enumerating the split point. -/
def splitDAD (r : List Char) : Bool :=
  (List.range r.length).any fun i =>
    1 ≤ i && (r.take i).all isDig &&
      (match r.drop i with
       | a :: ds => !(a == '\n') && !ds.isEmpty && ds.all isDig
       | [] => false)

/-- The language of the first LOCATION group `[+\-]?\d+(?:.\d+)?`
(the unescaped `.` of the source pattern matches any non-newline). -/
def locG1 (cs : List Char) : Bool :=
  let t := dropSign cs
  (!t.isEmpty && t.all isDig) || splitDAD t

/-- The language of the second LOCATION group `[+\-]?\d+(?:.\d+)`. -/
def locG2 (cs : List Char) : Bool := splitDAD (dropSign cs)

/-- `LOCATION = re.compile(r'^@([+\-]?\d+(?:.\d+)?)\/([+\-]?\d+(?:.\d+))?$')`
(line 32): `@`, group 1, `/`, optional group 2; all split points of the
body around the literal `/` are enumerated. -/
def LOCATION_match (s : String) : Bool :=
  match s.data with
  | c :: body =>
    c == '@' &&
      (List.range (body.length + 1)).any fun i =>
        locG1 (body.take i) &&
          (match body.drop i with
           | '/' :: rest => rest.isEmpty || locG2 rest
           | _ => false)
  | [] => false

/-- `QUANTITY = re.compile(r'^[+-]\d+(\.\d+)?$')` (line 33). -/
def QUANTITY_match (s : String) : Bool :=
  match s.data with
  | c :: rest =>
    (c == '+' || c == '-') && !(rest.takeWhile isDig).isEmpty &&
      (match rest.dropWhile isDig with
       | [] => true
       | '.' :: frac => !frac.isEmpty && frac.all isDig
       | _ => false)
  | [] => false

/-- Body scan of the quoted-string part of MONOLINGUAL_TEXT after the
opening quote: `([^"\\]|\\.)*"` anchored at the end of the string. -/
def quotedTail : List Char → Bool
  | ['"'] => true
  | '\\' :: c :: rest => !(c == '\n') && quotedTail rest
  | c :: rest => !(c == '"') && !(c == '\\') && !rest.isEmpty && quotedTail rest
  | [] => false

/-- The language of `"[^"\\]*(?:\\.[^"\\]*)*"` anchored at the end. -/
def matchQuoted : List Char → Bool
  | '"' :: rest => quotedTail rest
  | _ => false

/-- `MONOLINGUAL_TEXT = re.compile(r'^(\w+):("[^"\\]*(?:\\.[^"\\]*)*")$')`
(line 34), returning the two capture groups (language code, quoted string)
on success.  `\w+` is the maximal word-char run since `:` is not a word
character. -/
def monoGroups (s : String) : Option (String × List Char) :=
  let w := s.data.takeWhile isWordChar
  match s.data.dropWhile isWordChar with
  | c :: q =>
    if c == ':' && !w.isEmpty && matchQuoted q then some (String.mk w, q) else none
  | [] => none

/-! ## The value classifier `handle_value` (src/qs2rdf.py lines 123-183)

A Python exception escaping `handle_value` is the explicit result `crash`;
`rejected` is the source's `return None`. -/

/-- Result of one `handle_value` call: a returned rdflib term, the explicit
`return None` rejection, or an uncaught Python exception. -/
inductive HVResult
  | term (t : Term)
  | rejected
  | crash
deriving DecidableEq, Repr

/-- Scheme characters accepted by CPython's `urllib.parse.urlsplit`. -/
def schemeChar (c : Char) : Bool := c.isAlpha || isDig c || c == '+' || c == '-' || c == '.'

/-- The parts of a parse result that `handle_value` reads. -/
structure UrlParts where
  scheme : List Char
  netloc : List Char
deriving DecidableEq, Repr

/-- Models CPython `urllib.parse.urlparse` restricted to the fields the
source reads (`scheme`, lower-cased, and `netloc`): a `scheme:` prefix is
split off when the text before the first `:` is non-empty and made of
scheme characters; a netloc follows `//` up to the first `/`, `?` or `#`.
Returns `none` for the eagerly raised `ValueError: Invalid IPv6 URL` when
the netloc contains an unmatched square bracket.  (Recent CPython versions
also require the scheme to start with a letter — unobservable here, since
only `scheme.startswith('http')` and netloc emptiness are read — and
validate bracketed hosts further; no claim-relevant token contains
brackets.) -/
def urlparseModel (cs : List Char) : Option UrlParts :=
  let (scheme, rest) :=
    match splitFirst ':' cs with
    | some (pre, post) =>
      if !pre.isEmpty && pre.all schemeChar then (pre.map Char.toLower, post)
      else ([], cs)
    | none => ([], cs)
  match rest with
  | '/' :: '/' :: r =>
    let netloc := r.takeWhile fun c => !(c == '/') && !(c == '?') && !(c == '#')
    if (netloc.contains '[' && !netloc.contains ']') ||
       (netloc.contains ']' && !netloc.contains '[') then none
    else some ⟨scheme, netloc⟩
  | _ => some ⟨scheme, []⟩

/-- The fallback branch of `handle_value` (lines 171-183): strip ALL
surrounding double quotes, URL-parse; a URI reference when the scheme
starts with `http` (`scheme.find('http') == 0`) and a netloc is present,
a plain untyped literal otherwise.  The `ValueError` that `urlparse` can
raise propagates. -/
def fallbackBranch (value : String) : HVResult :=
  let no_quotes := stripChar '"' value.data
  match urlparseModel no_quotes with
  | none => .crash
  | some parsed =>
    if "http".data.isPrefixOf parsed.scheme && !parsed.netloc.isEmpty then
      .term (.uri (String.mk no_quotes))
    else
      .term (.literal (String.mk no_quotes) none none)

/-- The TIME branch of `handle_value` (lines 139-156), entered when
`TIME.match(value)` succeeded.  `time, precision = value.split('/')`;
`bc = '-' if time[0] == '-' else ''`; `year, rest = time[1:].split('-', 1)`;
`year = '%04d' % int(year)`; reject when `year == '0000'`; otherwise a
dateTime-typed literal `bc + year + '-' + rest`.  The `crash` arms model
the `ValueError`/`IndexError` of the unpacking steps; they are unreachable
for TIME-matching input. -/
def timeBranch (cs : List Char) : HVResult :=
  match splitChar '/' cs with
  | [time, _precision] =>
    match time with
    | [] => .crash
    | _t0 :: t1 =>
      let bc := if _t0 == '-' then "-" else ""
      match splitFirst '-' t1 with
      | none => .crash
      | some (year, rest) =>
        if year.isEmpty || !year.all isDig then .crash
        else
          let y := pad4 (digitsToNat year)
          if y == "0000" then .rejected
          else .term (.literal (bc ++ y ++ "-" ++ String.mk rest) none (some XSD_dateTime))
  | _ => .crash

/-- `handle_value` (lines 123-183): the ordered first-match-wins cascade.
The LOCATION branch builds `Literal('Point(%s %s)' % (lon, lat))` on line
163 but then executes line 164,
`logger.debug('Location. From [%s] to [%s]' (value, point.n3()))`,
where the `%` operator is missing: the format string is *called* with a
tuple argument, raising `TypeError: 'str' object is not callable`, so the
branch never returns — modelled as `crash`. -/
def handle_value (value : String) : HVResult :=
  if ITEM_match value then .term (.uri (WD ++ value))
  else
    match monoGroups value with
    | some (lang, quoted) =>
      .term (.literal (String.mk (stripChar '"' quoted)) (some lang) none)
    | none =>
      if TIME_match value then timeBranch value.data
      else if LOCATION_match value then .crash
      else if QUANTITY_match value then .term (.literal value none (some XSD_decimal))
      else fallbackBranch value

/-! ## Identifier minting (src/qs2rdf.py lines 186-194) -/

/-- Run state: the stream of UUID strings that `uuid4()` will produce
(an oracle for the random generator), and the bytes fed so far to the
module-level `SHA = sha1()` object of line 14. -/
structure RunState where
  uuids : List String
  sha : List Nat
deriving DecidableEq, Repr

/-- `mint_statement_node` (lines 186-188):
`URIRef(WDS + statement_subject + '-' + str(uuid4()))`, consuming the next
UUID of the oracle stream. -/
def mint_statement_node (statement_subject : String) (st : RunState) : Term × RunState :=
  (.uri (WDS ++ statement_subject ++ "-" ++ st.uuids.headD ""),
   { st with uuids := st.uuids.tail })

/-- `mint_reference_node` (lines 191-194): `SHA.update(value.encode('utf-8'))`
on the CUMULATIVE module-level hash object, then
`URIRef(WDREF + SHA.hexdigest())`. -/
def mint_reference_node (reference_value : Term) (st : RunState) : Term × RunState :=
  let fed := st.sha ++ utf8Encode reference_value.toPyStr
  (.uri (WDREF ++ sha1Hex fed), { st with sha := fed })

/-! ## The statement assembler `convert` (src/qs2rdf.py lines 69-120) -/

/-- One RDF triple (subject, predicate, object). -/
abbrev Triple := Term × Term × Term

/-- `zip(*[iter(elements[3:])] * 2)` (line 96): consecutive pairs, the
trailing unpaired element of an odd-length list silently dropped. -/
def pairUp {α : Type} : List α → List (α × α)
  | a :: b :: rest => (a, b) :: pairUp rest
  | _ => []

/-- The qualifier pairs: keys starting with `P` (line 100). -/
def qualPairs (rest : List String) : List (String × String) :=
  (pairUp rest).filter fun pr => headIs pr.1 'P'

/-- The reference pairs: keys starting with `S` (line 101; the source's
`elif` is equivalent as no key starts with both letters). -/
def refPairs (rest : List String) : List (String × String) :=
  (pairUp rest).filter fun pr => headIs pr.1 'S'

/-- `prop.replace('S', 'P')` (line 116): every occurrence of `S` replaced. -/
def replaceSP (s : String) : String :=
  String.mk (s.data.map fun c => if c == 'S' then 'P' else c)

/-- The qualifier loop (lines 103-107): classify each value, skip the pair
on rejection or on a falsy term, otherwise emit
`(st_node, PQ + prop, val)`; a classifier exception aborts the run. -/
def qualifierLoop (st_node : Term) : List (String × String) → Option (List Triple)
  | [] => some []
  | (prop, val) :: rest =>
    match handle_value val with
    | .crash => none
    | .rejected => qualifierLoop st_node rest
    | .term v =>
      if v.truthy then
        match qualifierLoop st_node rest with
        | none => none
        | some ts => some ((st_node, Term.uri (PQ ++ prop), v) :: ts)
      else qualifierLoop st_node rest

/-- The reference loop (lines 112-116): like the qualifier loop but
emitting `(ref_node, PR + prop.replace('S', 'P'), val)`. -/
def referenceLoop (ref_node : Term) : List (String × String) → Option (List Triple)
  | [] => some []
  | (prop, val) :: rest =>
    match handle_value val with
    | .crash => none
    | .rejected => referenceLoop ref_node rest
    | .term v =>
      if v.truthy then
        match referenceLoop ref_node rest with
        | none => none
        | some ts => some ((ref_node, Term.uri (PR ++ replaceSP prop), v) :: ts)
      else referenceLoop ref_node rest

/-- Processing of one already-split statement line (lines 77-117): returns
the triples added to the graph for this line (in emission order) and the
updated run state, or `none` when an exception escapes.  Structural
failures and a rejected or falsy main value skip the line (`continue`),
adding nothing. -/
def convertStatement (elements : List String) (st : RunState) :
    Option (List Triple × RunState) :=
  match elements with
  | subject :: main_pid :: value_tok :: rest =>
    if !ITEM_match subject then some ([], st)
    else if !PROPERTY_match main_pid then some ([], st)
    else
      match handle_value value_tok with
      | .crash => none
      | .rejected => some ([], st)
      | .term value =>
        if !value.truthy then some ([], st)
        else
          let minted := mint_statement_node subject st
          let st_node := minted.1
          let st1 := minted.2
          let mainTs : List Triple :=
            [(Term.uri (WD ++ subject), Term.uri (P ++ main_pid), st_node),
             (st_node, Term.uri (PS ++ main_pid), value)]
          match qualifierLoop st_node (qualPairs rest) with
          | none => none
          | some qts =>
            match refPairs rest with
            | [] => some (mainTs ++ qts, st1)
            | _ :: _ =>
              let mintedRef := mint_reference_node value st1
              let ref_node := mintedRef.1
              let st2 := mintedRef.2
              match referenceLoop ref_node (refPairs rest) with
              | none => none
              | some rts =>
                some (mainTs ++ qts ++
                  (st_node, Term.uri (PROV ++ "wasDerivedFrom"), ref_node) :: rts, st2)
  | _ => some ([], st)

/-- Splitting of one raw input line (lines 74-75):
`statement.strip()` then `split('\t')`. -/
def lineElements (statement : String) : List String :=
  (splitChar '\t' (pyStripWs statement.data)).map String.mk

/-- Processing of one raw input line. -/
def convertLine (statement : String) (st : RunState) : Option (List Triple × RunState) :=
  convertStatement (lineElements statement) st

/-- The whole `convert` loop over the input lines (lines 73-117): the
graph contents accumulated over the run, `none` when a line raises. -/
def convert : List String → RunState → Option (List Triple)
  | [], _ => some []
  | l :: ls, st =>
    match convertLine l st with
    | none => none
    | some (ts, st') =>
      match convert ls st' with
      | none => none
      | some rest => some (ts ++ rest)

/-! ## Supporting lemmas -/

/-- FIPS 180-4 test vector, validating the SHA-1 embedding. -/
theorem sha1Hex_abc_vector :
    sha1Hex (utf8Encode "abc") = "a9993e364706816aba3e25717850c26c9cd0d89d" := by
  decide

theorem takeWhile_append_not {p : Char → Bool} :
    ∀ (xs : List Char) (c : Char) (r : List Char), xs.all p = true → p c = false →
      (xs ++ c :: r).takeWhile p = xs
  | [], c, r, _, hc => by simp [List.takeWhile_cons, hc]
  | x :: xs, c, r, hall, hc => by
    simp only [List.all_cons, Bool.and_eq_true] at hall
    simp [List.takeWhile_cons, hall.1, takeWhile_append_not xs c r hall.2 hc]

theorem dropWhile_append_not {p : Char → Bool} :
    ∀ (xs : List Char) (c : Char) (r : List Char), xs.all p = true → p c = false →
      (xs ++ c :: r).dropWhile p = c :: r
  | [], c, r, _, hc => by simp [List.dropWhile_cons, hc]
  | x :: xs, c, r, hall, hc => by
    simp only [List.all_cons, Bool.and_eq_true] at hall
    simp [List.dropWhile_cons, hall.1, dropWhile_append_not xs c r hall.2 hc]

theorem splitChar_not_mem {sep : Char} :
    ∀ cs : List Char, sep ∉ cs → splitChar sep cs = [cs]
  | [], _ => rfl
  | c :: rest, h => by
    have hc : ¬ c = sep := fun e => h (e ▸ List.mem_cons_self c rest)
    have := splitChar_not_mem rest (fun m => h (List.mem_cons_of_mem c m))
    simp [splitChar, this, hc]

theorem splitChar_append {sep : Char} :
    ∀ (l r : List Char), sep ∉ l → sep ∉ r → splitChar sep (l ++ sep :: r) = [l, r]
  | [], r, _, hr => by simp [splitChar, splitChar_not_mem r hr]
  | c :: l, r, hl, hr => by
    have hc : ¬ c = sep := fun e => hl (e ▸ List.mem_cons_self c l)
    have := splitChar_append l r (fun m => hl (List.mem_cons_of_mem c m)) hr
    simp [splitChar, this, hc]

theorem splitFirst_append {sep : Char} :
    ∀ (l r : List Char), sep ∉ l → splitFirst sep (l ++ sep :: r) = some (l, r)
  | [], r, _ => by simp [splitFirst]
  | c :: l, r, hl => by
    have hc : ¬ c = sep := fun e => hl (e ▸ List.mem_cons_self c l)
    have := splitFirst_append l r (fun m => hl (List.mem_cons_of_mem c m))
    simp [splitFirst, this, hc]

theorem pairUp_dropLast {α : Type} :
    ∀ l : List α, l.length % 2 = 1 → pairUp l = pairUp l.dropLast
  | [], h => by simp at h
  | [_], _ => rfl
  | a :: b :: r, h => by
    have hr : r.length % 2 = 1 := by
      have h2 := h; simp only [List.length_cons] at h2; omega
    have hne : r ≠ [] := by
      intro e; rw [e] at hr; simp at hr
    obtain ⟨x, t, rfl⟩ : ∃ x t, r = x :: t := by
      cases r with
      | nil => exact absurd rfl hne
      | cons x t => exact ⟨x, t, rfl⟩
    simp [pairUp, List.dropLast, pairUp_dropLast (x :: t) hr]

theorem dropWhile_head_false {p : Char → Bool} :
    ∀ (l : List Char) (c : Char), (l.dropWhile p).head? = some c → p c = false
  | [], c, h => by simp [List.dropWhile] at h
  | x :: l, c, h => by
    by_cases hx : p x
    · rw [List.dropWhile_cons_of_pos hx] at h
      exact dropWhile_head_false l c h
    · rw [List.dropWhile_cons_of_neg hx] at h
      simp only [List.head?_cons, Option.some.injEq] at h
      rw [← h]
      exact Bool.eq_false_iff.mpr hx

theorem dropWhile_getLast_eq {p : Char → Bool} :
    ∀ l : List Char, l.dropWhile p ≠ [] → (l.dropWhile p).getLast? = l.getLast?
  | [], h => by simp [List.dropWhile] at h
  | x :: l, h => by
    by_cases hx : p x
    · rw [List.dropWhile_cons_of_pos hx] at h ⊢
      have hl : l ≠ [] := by
        intro e; rw [e] at h; simp [List.dropWhile] at h
      obtain ⟨y, t, rfl⟩ : ∃ y t, l = y :: t := by
        cases l with
        | nil => exact absurd rfl hl
        | cons y t => exact ⟨y, t, rfl⟩
      rw [dropWhile_getLast_eq (y :: t) h, List.getLast?_cons_cons]
    · rw [List.dropWhile_cons_of_neg hx]

/-- Both ends of `stripChar ch cs` are free of `ch`. -/
theorem stripChar_head (ch : Char) (cs : List Char) (c : Char) :
    (stripChar ch cs).head? = some c → ¬ c = ch := by
  intro h
  unfold stripChar at h
  rw [List.head?_reverse] at h
  set Z := ((cs.dropWhile (· == ch)).reverse.dropWhile (· == ch)) with hZ
  have hne : Z ≠ [] := by
    intro e; rw [e] at h; simp at h
  rw [hZ, dropWhile_getLast_eq _ (hZ ▸ hne), List.getLast?_reverse] at h
  have := dropWhile_head_false (p := (· == ch)) cs c h
  simpa using this

theorem stripChar_getLast (ch : Char) (cs : List Char) (c : Char) :
    (stripChar ch cs).getLast? = some c → ¬ c = ch := by
  intro h
  unfold stripChar at h
  rw [List.getLast?_reverse] at h
  have := dropWhile_head_false (p := (· == ch)) (cs.dropWhile (· == ch)).reverse c h
  simpa using this

/-- Characters of distinct digit status are distinct. -/
theorem isDig_ne {c d : Char} (hc : isDig c = true) (hd : isDig d = false) : ¬ c = d := by
  intro e; rw [e, hd] at hc; cases hc

/-- Bound for Python `int` on a digit string. -/
theorem digitsToNat_lt :
    ∀ cs : List Char, cs.all isDig = true → digitsToNat cs < 10 ^ cs.length := by
  have key : ∀ (cs : List Char) (acc : Nat), cs.all isDig = true →
      cs.foldl (fun a c => 10 * a + (c.toNat - 48)) acc < (acc + 1) * 10 ^ cs.length := by
    intro cs
    induction cs with
    | nil => intro acc _; simp
    | cons c r ih =>
      intro acc hall
      simp only [List.all_cons, Bool.and_eq_true] at hall
      have hd : c.toNat - 48 ≤ 9 := by
        have : c.toNat ≤ 57 := by
          have h2 := hall.1
          simp only [isDig, Bool.and_eq_true, decide_eq_true_eq] at h2
          exact h2.2
        omega
      calc r.foldl (fun a c => 10 * a + (c.toNat - 48)) (10 * acc + (c.toNat - 48))
          < (10 * acc + (c.toNat - 48) + 1) * 10 ^ r.length := ih _ hall.2
        _ ≤ ((acc + 1) * 10) * 10 ^ r.length := by
            apply Nat.mul_le_mul_right
            omega
        _ = (acc + 1) * 10 ^ (c :: r).length := by
            rw [List.length_cons, Nat.pow_succ]
            ring
  intro cs hall
  simpa [digitsToNat] using key cs 0 hall

theorem decDigitsRev_ne_nil : ∀ (fuel n : Nat), decDigitsRev (fuel + 1) n ≠ [] := by
  intro fuel n
  unfold decDigitsRev
  by_cases h : n < 10 <;> simp [h]

theorem decDigitsRev_length_le :
    ∀ (fuel n k : Nat), n < fuel → n < 10 ^ k → 1 ≤ k →
      (decDigitsRev fuel n).length ≤ k := by
  intro fuel
  induction fuel with
  | zero => intro n k h; omega
  | succ fuel ih =>
    intro n k hfuel hpow hk
    unfold decDigitsRev
    by_cases h10 : n < 10
    · simp [h10]; omega
    · simp only [h10, if_false, List.length_cons]
      have hk2 : 2 ≤ k := by
        by_contra hlt
        have : k = 1 := by omega
        rw [this] at hpow
        simp at hpow
        omega
      have hdivfuel : n / 10 < fuel := by
        have : n / 10 < n := Nat.div_lt_self (by omega) (by omega)
        omega
      have hdivpow : n / 10 < 10 ^ (k - 1) := by
        rw [Nat.div_lt_iff_lt_mul (by omega)]
        have : 10 ^ (k - 1) * 10 = 10 ^ k := by
          rw [← Nat.pow_succ]
          congr 1
          omega
        omega
      have := ih (n / 10) (k - 1) hdivfuel hdivpow (by omega)
      omega

theorem decRepr_length_le {n k : Nat} (h : n < 10 ^ k) (hk : 1 ≤ k) :
    (decRepr n).length ≤ k := by
  unfold decRepr
  rw [List.length_reverse]
  exact decDigitsRev_length_le (n + 1) n k (Nat.lt_succ_self n) h hk

theorem decRepr_ne_nil (n : Nat) : decRepr n ≠ [] := by
  unfold decRepr
  intro h
  exact decDigitsRev_ne_nil n n (List.reverse_eq_nil_iff.mp h)

/-- `'%04d'` always yields at least four characters. -/
theorem pad4_length_ge (n : Nat) : 4 ≤ (pad4 n).length := by
  have h1 : 1 ≤ (decRepr n).length := by
    have := decRepr_ne_nil n
    cases h : decRepr n with
    | nil => exact absurd h this
    | cons a l => simp [h]
  simp only [pad4, String.length, List.length_append, List.length_replicate]
  omega

/-- `'%04d'` yields exactly four characters when the value fits. -/
theorem pad4_length_eq {n : Nat} (h : n < 10 ^ 4) : (pad4 n).length = 4 := by
  have hle : (decRepr n).length ≤ 4 := decRepr_length_le h (by omega)
  simp only [pad4, String.length, List.length_append, List.length_replicate]
  omega

/-- Every reference pair whose value classifies to a truthy term gets its
triple, with predicate `PR + key.replace('S', 'P')`, in the reference
loop's output. -/
theorem referenceLoop_mem (ref_node : Term) :
    ∀ (prs : List (String × String)) (ts : List Triple),
      referenceLoop ref_node prs = some ts →
      ∀ (k val : String), (k, val) ∈ prs →
        ∀ w : Term, handle_value val = .term w → w.truthy = true →
          (ref_node, Term.uri (PR ++ replaceSP k), w) ∈ ts := by
  intro prs
  induction prs with
  | nil =>
    intro ts _ k val hm
    simp at hm
  | cons p rest ih =>
    intro ts hloop k val hm w hw htr
    obtain ⟨kp, vp⟩ := p
    rw [List.mem_cons] at hm
    unfold referenceLoop at hloop
    cases hcls : handle_value vp with
    | crash => rw [hcls] at hloop; cases hloop
    | rejected =>
      rw [hcls] at hloop
      rcases hm with he | hm
      · obtain ⟨rfl, rfl⟩ := Prod.mk.injEq .. ▸ he
        · rw [hw] at hcls; cases hcls
      · exact ih ts hloop k val hm w hw htr
    | term u =>
      rw [hcls] at hloop
      replace hloop :
          (if u.truthy = true then
            match referenceLoop ref_node rest with
            | none => none
            | some ts => some ((ref_node, Term.uri (PR ++ replaceSP kp), u) :: ts)
          else referenceLoop ref_node rest) = some ts := hloop
      by_cases hut : u.truthy
      · rw [if_pos hut] at hloop
        cases hrest : referenceLoop ref_node rest with
        | none => rw [hrest] at hloop; cases hloop
        | some ts' =>
          rw [hrest] at hloop
          simp only [Option.some.injEq] at hloop
          rcases hm with he | hm
          · have hk : k = kp ∧ val = vp := by
              constructor
              · exact congrArg Prod.fst he
              · exact congrArg Prod.snd he
            obtain ⟨rfl, rfl⟩ := hk
            rw [hw] at hcls
            cases hcls
            rw [← hloop]
            exact List.mem_cons_self _ _
          · rw [← hloop]
            exact List.mem_cons_of_mem _ (ih ts' hrest k val hm w hw htr)
      · rw [if_neg hut] at hloop
        rcases hm with he | hm
        · have hk : k = kp ∧ val = vp := by
            constructor
            · exact congrArg Prod.fst he
            · exact congrArg Prod.snd he
          obtain ⟨rfl, rfl⟩ := hk
          rw [hw] at hcls
          cases hcls
          exact absurd htr hut
        · exact ih ts hloop k val hm w hw htr

/-! ## Claim C1 -/

/-- C1 (code_bug evidence): the claim that `handle_value` always returns a
classified term or a rejection — in particular that geographic-point tokens
complete normally — fails on the code: the debug call on src line 164 lacks
its `%` operator and instead *calls* the format string, raising `TypeError`;
evaluated here on the geo token `@12.5/41.9`. -/
theorem C1_geo_token_crashes : handle_value "@12.5/41.9" = HVResult.crash := by
  decide

/-! ## Claim C2 -/

/-- C2 counterexample: for `+1990-05-12T00:00:00Z/11` the produced dateTime
literal's lexical form is `1990-05-12T00:00:00Z` — the trailing `Z` is kept,
so it is not the claimed `1990-05-12T00:00:00`. -/
theorem C2_trailing_Z_cex :
    handle_value "+1990-05-12T00:00:00Z/11"
      = HVResult.term (Term.literal "1990-05-12T00:00:00Z" none (some XSD_dateTime))
    ∧ ¬ handle_value "+1990-05-12T00:00:00Z/11"
      = HVResult.term (Term.literal "1990-05-12T00:00:00" none (some XSD_dateTime)) := by
  decide

/-- C2 amended: classifying `+1990-05-12T00:00:00Z/11` produces a
dateTime-typed literal with lexical form exactly `1990-05-12T00:00:00Z`
(leading `+` dropped, precision suffix discarded, trailing `Z` retained). -/
theorem C2_timestamp_literal :
    handle_value "+1990-05-12T00:00:00Z/11"
      = HVResult.term (Term.literal "1990-05-12T00:00:00Z" none (some XSD_dateTime)) := by
  decide

/-! ## Claim C3 -/

/-- C3 counterexample: two successive `mint_reference_node` calls with the
SAME main-value term (the term for `Q5`) yield DIFFERENT reference-node
identifiers, because the module-level SHA-1 state accumulates. -/
theorem C3_same_value_different_nodes :
    ¬ (mint_reference_node (Term.uri (WD ++ "Q5")) { uuids := [], sha := [] }).1
      = (mint_reference_node (Term.uri (WD ++ "Q5"))
          (mint_reference_node (Term.uri (WD ++ "Q5")) { uuids := [], sha := [] }).2).1 := by
  decide

/-- The SHA state after a sequence of mints is the initial state followed by
the concatenated UTF-8 encodings of all minted values. -/
theorem mint_foldl_sha (vs : List Term) :
    ∀ st : RunState,
      (vs.foldl (fun s t => (mint_reference_node t s).2) st).sha
        = st.sha ++ (vs.map fun t => utf8Encode t.toPyStr).flatten := by
  induction vs with
  | nil => intro st; simp
  | cons v vs ih =>
    intro st
    simp only [List.foldl_cons, List.map_cons, List.flatten_cons]
    rw [ih]
    simp [mint_reference_node, List.append_assoc]

/-- C3 amended: the minted reference-node identifier is a deterministic
function of the ENTIRE history of values fed to the cumulative module-level
hash (plus its starting state), not of the last value alone: after minting
the values `vs`, minting `v` yields the digest of the concatenation of all
their encodings. -/
theorem C3_mint_reference_node_history (vs : List Term) (v : Term) (st : RunState) :
    (mint_reference_node v (vs.foldl (fun s t => (mint_reference_node t s).2) st)).1
      = Term.uri (WDREF ++ sha1Hex
          (st.sha ++ (((vs ++ [v]).map fun t => utf8Encode t.toPyStr)).flatten)) := by
  show Term.uri _ = _
  rw [mint_foldl_sha]
  simp [List.append_assoc]

/-! ## Claim C4 -/

/-- C4 (code_bug evidence): for EVERY token accepted by the LOCATION
pattern, `handle_value` raises (the missing `%` on src line 164 calls the
format string), so classification never yields the well-known-text
point literal that line 163 builds with longitude first. -/
theorem C4_location_always_crashes (v : String) (h : LOCATION_match v = true) :
    handle_value v = HVResult.crash := by
  obtain ⟨tl, hd⟩ : ∃ tl, v.data = '@' :: tl := by
    unfold LOCATION_match at h
    rcases e : v.data with _ | ⟨c, tl⟩
    · rw [e] at h; cases h
    · rw [e] at h
      simp only [Bool.and_eq_true, beq_iff_eq] at h
      exact ⟨tl, by rw [h.1]⟩

  have h1 : ITEM_match v = false := by
    unfold ITEM_match
    rw [hd]
    simp [show (('@' : Char) == 'Q') = false from by decide]
  have h2 : monoGroups v = none := by
    unfold monoGroups
    rw [hd]
    rw [List.dropWhile_cons_of_neg (by decide : ¬ isWordChar '@' = true)]
    simp [show (('@' : Char) == ':') = false from by decide]
  have h3 : TIME_match v = false := by
    unfold TIME_match
    rw [hd]
    simp [show (('@' : Char) == '+') = false from by decide,
          show (('@' : Char) == '-') = false from by decide]
  unfold handle_value
  rw [h1, h2, h3, h]
  simp

/-- C4 witness: the geo token `@41.89/12.48` matches LOCATION and its
classification crashes. -/
theorem C4_location_always_crashes_witness :
    LOCATION_match "@41.89/12.48" = true ∧ handle_value "@41.89/12.48" = HVResult.crash :=
  ⟨by decide, C4_location_always_crashes "@41.89/12.48" (by decide)⟩

/-! ## Claim C5 -/

/-- C5 counterexample: the fallback rule strips ALL surrounding quote
characters, not one layer: the token `""x""` yields the plain literal `x`,
not `"x"`. -/
theorem C5_strip_all_layers_cex :
    handle_value "\"\"x\"\"" = HVResult.term (Term.literal "x" none none)
    ∧ ¬ handle_value "\"\"x\"\"" = HVResult.term (Term.literal "\"x\"" none none) := by
  decide

/-- C5 amended: a token that falls through to the fallback rule has ALL its
surrounding double-quote characters stripped (Python `str.strip('"')`)
before URI parsing / plain-literal construction: the branch operates on
`stripChar '"'` of the token, and the stripped text retains no leading and
no trailing quote. -/
theorem C5_fallback_strips_all_quotes (v : String)
    (h1 : ITEM_match v = false) (h2 : monoGroups v = none)
    (h3 : TIME_match v = false) (h4 : LOCATION_match v = false)
    (h5 : QUANTITY_match v = false) :
    handle_value v = fallbackBranch v
    ∧ ((stripChar '"' v.data).head?.all fun c => !(c == '"')) = true
    ∧ ((stripChar '"' v.data).getLast?.all fun c => !(c == '"')) = true := by
  refine ⟨?_, ?_, ?_⟩
  · unfold handle_value
    rw [h1, h2, h3, h4, h5]
    simp
  · cases hh : (stripChar '"' v.data).head? with
    | none => simp
    | some c =>
      have := stripChar_head '"' v.data c hh
      simpa using this
  · cases hh : (stripChar '"' v.data).getLast? with
    | none => simp
    | some c =>
      have := stripChar_getLast '"' v.data c hh
      simpa using this

/-- C5 witness: on the token `""x""` the fallback applies and the stripped
content `x` has no remaining quotes. -/
theorem C5_fallback_strips_all_quotes_witness :
    handle_value "\"\"x\"\"" = fallbackBranch "\"\"x\"\""
    ∧ ((stripChar '"' "\"\"x\"\"".data).head?.all fun c => !(c == '"')) = true
    ∧ ((stripChar '"' "\"\"x\"\"".data).getLast?.all fun c => !(c == '"')) = true :=
  C5_fallback_strips_all_quotes "\"\"x\"\"" (by decide) (by decide) (by decide)
    (by decide) (by decide)


theorem digitChar_round (a : Char) (h1 : 48 ≤ a.toNat) (h2 : a.toNat ≤ 57) :
    digitChar (a.toNat - 48) = a := by
  unfold digitChar
  have h3 : 48 + (a.toNat - 48) = a.toNat := by omega
  rw [h3, Char.ofNat_toNat]

theorem decDigitsRev_fuel (f1 : Nat) :
    ∀ (f2 n : Nat), n < f1 → n < f2 → decDigitsRev f1 n = decDigitsRev f2 n := by
  induction f1 with
  | zero => intro f2 n h; omega
  | succ f1 ih =>
    intro f2 n h1 h2
    obtain ⟨f2', rfl⟩ : ∃ f2', f2 = f2' + 1 := ⟨f2 - 1, by omega⟩
    by_cases h10 : n < 10
    · simp [decDigitsRev, h10]
    · simp only [decDigitsRev, h10, if_false]
      have hdiv : n / 10 < n := Nat.div_lt_self (by omega) (by omega)
      rw [ih f2' (n / 10) (by omega) (by omega)]

theorem decRepr_ten (m d : Nat) (hm : 0 < m) (hd : d ≤ 9) :
    decRepr (10 * m + d) = decRepr m ++ [digitChar d] := by
  unfold decRepr
  have h10 : ¬ 10 * m + d < 10 := by omega
  have hmod : (10 * m + d) % 10 = d := by omega
  have hdiv : (10 * m + d) / 10 = m := by omega
  have hstep : decDigitsRev (10 * m + d + 1) (10 * m + d)
      = digitChar d :: decDigitsRev (m + 1) m := by
    rw [show decDigitsRev (10 * m + d + 1) (10 * m + d)
        = if 10 * m + d < 10 then [digitChar (10 * m + d)]
          else digitChar ((10 * m + d) % 10)
            :: decDigitsRev (10 * m + d) ((10 * m + d) / 10) from rfl]
    rw [if_neg h10, hmod, hdiv,
      decDigitsRev_fuel (10 * m + d) (m + 1) m (by omega) (by omega)]
  rw [hstep]
  simp

theorem digitsToNat_snoc (t : List Char) (c : Char) :
    digitsToNat (t ++ [c]) = 10 * digitsToNat t + (c.toNat - 48) := by
  unfold digitsToNat
  rw [List.foldl_append]
  rfl

theorem digitsToNat_pos (c : Char) (t : List Char) (hc : 48 < c.toNat) :
    0 < digitsToNat (c :: t) := by
  have key : ∀ (l : List Char) (acc : Nat),
      acc ≤ l.foldl (fun a x => 10 * a + (x.toNat - 48)) acc := by
    intro l
    induction l with
    | nil => intro acc; exact Nat.le_refl acc
    | cons x xs ih =>
      intro acc
      calc acc ≤ 10 * acc + (x.toNat - 48) := by omega
        _ ≤ xs.foldl (fun a x => 10 * a + (x.toNat - 48)) (10 * acc + (x.toNat - 48)) :=
          ih _
  unfold digitsToNat
  calc 0 < 10 * 0 + (c.toNat - 48) := by omega
    _ ≤ t.foldl (fun a x => 10 * a + (x.toNat - 48)) (10 * 0 + (c.toNat - 48)) := key t _
    _ = (c :: t).foldl (fun a x => 10 * a + (x.toNat - 48)) 0 := rfl

theorem digitsToNat_zeros (z : List Char) :
    ∀ rest : List Char, (∀ x ∈ z, x = '0') →
      digitsToNat (z ++ rest) = digitsToNat rest := by
  induction z with
  | nil => intro rest _; rfl
  | cons a z ih =>
    intro rest hz
    have ha : a = '0' := hz a (List.mem_cons_self a z)
    subst ha
    have := ih rest fun x hx => hz x (List.mem_cons_of_mem _ hx)
    unfold digitsToNat at this ⊢
    simpa using this

/-- Decimal printing inverts decimal reading on digit strings with no
leading zero. -/
theorem decRepr_digits (t : List Char) :
    ∀ c : Char, isDig c = true → 48 < c.toNat → t.all isDig = true →
      decRepr (digitsToNat (c :: t)) = c :: t := by
  induction t using List.reverseRecOn with
  | nil =>
    intro c hc hpos _
    simp only [isDig, Bool.and_eq_true, decide_eq_true_eq] at hc
    have hval : digitsToNat [c] = c.toNat - 48 := by
      unfold digitsToNat
      simp
    have hlt : c.toNat - 48 < 10 := by omega
    rw [hval]
    unfold decRepr
    simp [decDigitsRev, hlt, digitChar_round c hc.1 hc.2]
  | append_singleton t e ih =>
    intro c hc hpos hall
    rw [List.all_append] at hall
    simp only [Bool.and_eq_true, List.all_cons, List.all_nil, Bool.and_true] at hall
    obtain ⟨ht, he⟩ := hall
    have he2 := he
    simp only [isDig, Bool.and_eq_true, decide_eq_true_eq] at he2
    rw [show c :: (t ++ [e]) = (c :: t) ++ [e] from rfl, digitsToNat_snoc (c :: t) e,
      decRepr_ten (digitsToNat (c :: t)) (e.toNat - 48)
        (digitsToNat_pos c t hpos) (by omega),
      ih c hc hpos ht, digitChar_round e he2.1 he2.2]

/-- `'%04d' % int(ys)` reproduces a four-character digit string exactly:
the year padding of the source is idempotent on four-digit years. -/
theorem pad4_four_digit (ys : List Char) (hlen : ys.length = 4)
    (hdig : ys.all isDig = true) :
    pad4 (digitsToNat ys) = String.mk ys := by
  have hsplit := List.takeWhile_append_dropWhile (p := (· == '0')) (l := ys)
  cases hdrop : ys.dropWhile (· == '0') with
  | nil =>
    have hall : ∀ x ∈ ys, x = '0' := by
      intro x hx
      simpa using List.dropWhile_eq_nil_iff.mp hdrop x hx
    have hrep : ys = List.replicate 4 '0' :=
      List.eq_replicate_iff.mpr ⟨hlen, hall⟩
    subst hrep
    decide
  | cons c t =>
    set z := ys.takeWhile (· == '0') with hzdef
    have hys : z ++ c :: t = ys := by
      rw [← hdrop]; exact hsplit
    have hc0 : (c == '0') = false :=
      dropWhile_head_false (p := (· == '0')) ys c (by rw [hdrop]; rfl)
    have hzall : ∀ x ∈ z, x = '0' := by
      intro x hx
      rw [hzdef] at hx
      simpa using List.mem_takeWhile_imp hx
    have hzrep : z = List.replicate z.length '0' :=
      List.eq_replicate_iff.mpr ⟨rfl, hzall⟩
    have hcd : isDig c = true := by
      refine List.all_eq_true.mp hdig c ?_
      rw [← hys]
      exact List.mem_append_right _ (List.mem_cons_self c t)
    have htd : t.all isDig = true := by
      rw [List.all_eq_true]
      intro x hx
      refine List.all_eq_true.mp hdig x ?_
      rw [← hys]
      exact List.mem_append_right _ (List.mem_cons_of_mem c hx)
    have hcpos : 48 < c.toNat := by
      have hcd2 := hcd
      simp only [isDig, Bool.and_eq_true, decide_eq_true_eq] at hcd2
      rcases Nat.lt_or_ge 48 c.toNat with h | h
      · exact h
      · exfalso
        have he : c.toNat = 48 := by omega
        have : c = '0' := by
          have h0 := Char.ofNat_toNat c
          rw [he] at h0
          rw [← h0]
        rw [this] at hc0
        simp at hc0
    have hval : digitsToNat ys = digitsToNat (c :: t) := by
      rw [← hys, digitsToNat_zeros _ _ hzall]
    unfold pad4
    rw [hval, decRepr_digits t c hcd hcpos htd]
    have hlen2 : 4 - (c :: t).length = z.length := by
      have hsum : z.length + (c :: t).length = 4 := by
        rw [← hlen, ← hys]
        simp
      omega
    rw [hlen2, ← hzrep, hys]

/-! ## Claim C6 -/

/-- C6 counterexample: the year is padded to a MINIMUM of four digits, not
exactly four: the valid timestamp token `+12345-01-01T00:00:00Z/9` keeps
its five-digit year `12345` in the produced dateTime literal. -/
theorem C6_five_digit_year_cex :
    handle_value "+12345-01-01T00:00:00Z/9"
      = HVResult.term (Term.literal "12345-01-01T00:00:00Z" none (some XSD_dateTime))
    ∧ ("12345-01-01T00:00:00Z".data.takeWhile isDig).length = 5 := by
  decide

/-- C6 amended: for every valid timestamp token
`{sgn}{ys}-{mm}-{dd}T{hh}:{nn}:{ss}Z/{prec}` the year written to the
literal is `'%04d' % int(ys)`: it has AT LEAST four digits, and exactly
four (zero-padded) whenever the input year has at most four digits — in
particular a four-digit year is reproduced unchanged (padding is
idempotent); a leading minus is preserved and a year normalizing to
`0000` is rejected rather than padded. -/
theorem C6_year_normalization (tok : String) (sgn m1 m2 d1 d2 hr1 hr2 n1 n2 s1 s2 : Char)
    (ys prec : List Char)
    (hsgn : sgn = '+' ∨ sgn = '-')
    (hysne : ¬ ys = []) (hysdig : ys.all isDig = true)
    (hds : [m1, m2, d1, d2, hr1, hr2, n1, n2, s1, s2].all isDig = true)
    (hprecne : ¬ prec = []) (hprecdig : prec.all isDig = true)
    (htok : tok.data = sgn :: (ys ++ '-' :: m1 :: m2 :: '-' :: d1 :: d2 :: 'T' :: hr1
      :: hr2 :: ':' :: n1 :: n2 :: ':' :: s1 :: s2 :: 'Z' :: '/' :: prec)) :
    4 ≤ (pad4 (digitsToNat ys)).length
    ∧ (ys.length ≤ 4 → (pad4 (digitsToNat ys)).length = 4)
    ∧ (ys.length = 4 → pad4 (digitsToNat ys) = String.mk ys)
    ∧ (pad4 (digitsToNat ys) = "0000" → handle_value tok = HVResult.rejected)
    ∧ (¬ pad4 (digitsToNat ys) = "0000" →
        handle_value tok = HVResult.term (Term.literal
          ((if sgn == '-' then "-" else "") ++ pad4 (digitsToNat ys) ++ "-"
            ++ String.mk [m1, m2, '-', d1, d2, 'T', hr1, hr2, ':', n1, n2, ':', s1, s2, 'Z'])
          none (some XSD_dateTime))) := by
  obtain ⟨t1, t2, t3, t4, t5, t6, t7, t8, t9, t10⟩ :
      isDig m1 = true ∧ isDig m2 = true ∧ isDig d1 = true ∧ isDig d2 = true ∧
      isDig hr1 = true ∧ isDig hr2 = true ∧ isDig n1 = true ∧ isDig n2 = true ∧
      isDig s1 = true ∧ isDig s2 = true := by
    simpa using hds
  have hysEmpty : ys.isEmpty = false := by
    cases ys with
    | nil => exact absurd rfl hysne
    | cons a l => rfl
  have hprecEmpty : prec.isEmpty = false := by
    cases prec with
    | nil => exact absurd rfl hprecne
    | cons a l => rfl
  -- the 15-character tail between the first '-' and the '/'
  set mid : List Char :=
    [m1, m2, '-', d1, d2, 'T', hr1, hr2, ':', n1, n2, ':', s1, s2, 'Z'] with hmid
  -- characters of the tail are digits or the fixed separators
  have hmidOk : mid.all (fun c => isDig c || c == '-' || c == 'T' || c == ':' || c == 'Z')
      = true := by
    simp [hmid, t1, t2, t3, t4, t5, t6, t7, t8, t9, t10]
  have hSlashMid : '/' ∉ mid := by
    intro hmem
    have := List.all_eq_true.mp hmidOk '/' hmem
    exact absurd this (by decide)
  have hSlashYs : '/' ∉ ys := by
    intro hmem
    have := List.all_eq_true.mp hysdig '/' hmem
    exact absurd this (by decide)
  have hSlashPrec : '/' ∉ prec := by
    intro hmem
    have := List.all_eq_true.mp hprecdig '/' hmem
    exact absurd this (by decide)
  have hDashYs : '-' ∉ ys := by
    intro hmem
    have := List.all_eq_true.mp hysdig '-' hmem
    exact absurd this (by decide)
  have hsgnSlash : ¬ sgn = '/' := by
    rcases hsgn with rfl | rfl <;> decide
  -- matcher evaluations
  have hITEM : ITEM_match tok = false := by
    unfold ITEM_match
    rw [htok]
    have : (sgn == 'Q') = false := by rcases hsgn with rfl | rfl <;> decide
    simp [this]
  have hMONO : monoGroups tok = none := by
    unfold monoGroups
    rw [htok]
    have hw : ¬ isWordChar sgn = true := by rcases hsgn with rfl | rfl <;> decide
    rw [List.dropWhile_cons_of_neg hw]
    have : (sgn == ':') = false := by rcases hsgn with rfl | rfl <;> decide
    simp [this]
  have htail : tok.data = sgn :: (ys ++ '-' :: (mid ++ '/' :: prec)) := by
    rw [htok, hmid]
    simp
  have hTIME : TIME_match tok = true := by
    unfold TIME_match
    rw [htail]
    have hPM : (sgn == '+' || sgn == '-') = true := by
      rcases hsgn with rfl | rfl <;> decide
    simp only [takeWhile_append_not ys '-' (mid ++ '/' :: prec) hysdig (by decide),
        dropWhile_append_not ys '-' (mid ++ '/' :: prec) hysdig (by decide),
        hPM, hysEmpty]
    simp [timeTail, hmid, t1, t2, t3, t4, t5, t6, t7, t8, t9, t10,
      hprecEmpty, hprecdig]
  have hHV : handle_value tok = timeBranch tok.data := by
    unfold handle_value
    rw [hITEM, hMONO, hTIME]
    simp
  have hsplitL : tok.data = (sgn :: (ys ++ '-' :: mid)) ++ '/' :: prec := by
    rw [htail]
    simp
  have hSlashL : '/' ∉ sgn :: (ys ++ '-' :: mid) := by
    intro hmem
    rcases List.mem_cons.mp hmem with he | hmem2
    · exact hsgnSlash he.symm
    · rcases List.mem_append.mp hmem2 with h | h
      · exact hSlashYs h
      · rcases List.mem_cons.mp h with he | h
        · exact absurd he (by decide)
        · exact hSlashMid h
  have hTB : timeBranch tok.data
      = (if pad4 (digitsToNat ys) == "0000" then HVResult.rejected
         else HVResult.term (Term.literal
           ((if sgn == '-' then "-" else "") ++ pad4 (digitsToNat ys) ++ "-"
             ++ String.mk mid) none (some XSD_dateTime))) := by
    unfold timeBranch
    rw [hsplitL]
    simp only [splitChar_append (sgn :: (ys ++ '-' :: mid)) prec hSlashL hSlashPrec,
        splitFirst_append ys mid hDashYs]
    simp [hysEmpty, hysdig]
  refine ⟨pad4_length_ge _, ?_, ?_, ?_, ?_⟩
  · intro hlen
    apply pad4_length_eq
    calc digitsToNat ys < 10 ^ ys.length := digitsToNat_lt ys hysdig
      _ ≤ 10 ^ 4 := Nat.pow_le_pow_right (by omega) hlen
  · intro hlen
    exact pad4_four_digit ys hlen hysdig
  · intro h0
    rw [hHV, hTB, h0]
    simp
  · intro h0
    rw [hHV, hTB, if_neg (by simpa using h0)]

/-- C6 witness: on `+931-01-01T00:00:00Z/9` the three-digit year `931` is
padded to the exactly-four-digit `0931`, while the four-digit year of
`-1990-01-01T00:00:00Z/9` is reproduced unchanged with its minus sign. -/
theorem C6_year_normalization_witness :
    (['9', '3', '1'] : List Char).all isDig = true
    ∧ (pad4 (digitsToNat ['9', '3', '1'])).length = 4
    ∧ pad4 (digitsToNat ['1', '9', '9', '0']) = String.mk ['1', '9', '9', '0']
    ∧ handle_value "+931-01-01T00:00:00Z/9"
        = HVResult.term (Term.literal "0931-01-01T00:00:00Z" none (some XSD_dateTime))
    ∧ handle_value "-1990-01-01T00:00:00Z/9"
        = HVResult.term (Term.literal "-1990-01-01T00:00:00Z" none (some XSD_dateTime)) := by
  have h := C6_year_normalization "+931-01-01T00:00:00Z/9" '+' '0' '1' '0' '1' '0' '0'
    '0' '0' '0' '0' ['9', '3', '1'] ['9'] (Or.inl rfl) (by decide) (by decide)
    (by decide) (by decide) (by decide) (by decide)
  have h2 := C6_year_normalization "-1990-01-01T00:00:00Z/9" '-' '0' '1' '0' '1' '0' '0'
    '0' '0' '0' '0' ['1', '9', '9', '0'] ['9'] (Or.inr rfl) (by decide) (by decide)
    (by decide) (by decide) (by decide) (by decide)
  refine ⟨by decide, h.2.1 (by decide), h2.2.2.1 (by decide), ?_, ?_⟩
  · rw [h.2.2.2.2 (by decide)]
    decide
  · rw [h2.2.2.2.2 (by decide)]
    decide

/-! ## Claim C7 -/

/-- C7 counterexample: `prop.replace('S', 'P')` replaces EVERY `S` in the
reference key, not only the sigil: for the line
`Q1 P31 Q5 S14S Q5` the emitted reference predicate is `pr:P14P`, and no
triple with the sigil-only remap `pr:P14S` exists. -/
theorem C7_replace_all_cex :
    ((convertStatement ["Q1", "P31", "Q5", "S14S", "Q5"] { uuids := ["u0"], sha := [] }).map
      fun p => (p.1.any fun t => t.2.1 == Term.uri (PR ++ "P14P"))
        && !(p.1.any fun t => t.2.1 == Term.uri (PR ++ "P14S"))) = some true := by
  decide

/-- C7 amended: for every line with at least one reference pair, exactly one
reference node is minted — the SHA state advances exactly once, keyed by the
main value's classified term — one provenance triple
`(statementNode, prov:wasDerivedFrom, referenceNode)` is emitted, and each
successfully classified reference pair contributes the triple
`(referenceNode, PR + key.replace('S','P'), value)` (every `S` of the key
replaced, which on canonical `S<digits>` keys equals the sigil remap,
e.g. `S143 ↦ pr:P143`). -/
theorem C7_reference_emission (subject main_pid vtok : String) (rest : List String)
    (st : RunState) (v : Term) (qts rts : List Triple)
    (hsub : ITEM_match subject = true) (hpid : PROPERTY_match main_pid = true)
    (hv : handle_value vtok = HVResult.term v) (htr : v.truthy = true)
    (hne : ¬ refPairs rest = [])
    (hq : qualifierLoop (mint_statement_node subject st).1 (qualPairs rest) = some qts)
    (hrl : referenceLoop (mint_reference_node v (mint_statement_node subject st).2).1
      (refPairs rest) = some rts) :
    convertStatement (subject :: main_pid :: vtok :: rest) st
      = some ([(Term.uri (WD ++ subject), Term.uri (P ++ main_pid),
                  (mint_statement_node subject st).1),
               ((mint_statement_node subject st).1, Term.uri (PS ++ main_pid), v)]
              ++ qts
              ++ ((mint_statement_node subject st).1,
                    Term.uri (PROV ++ "wasDerivedFrom"),
                    (mint_reference_node v (mint_statement_node subject st).2).1) :: rts,
              (mint_reference_node v (mint_statement_node subject st).2).2)
    ∧ (mint_reference_node v (mint_statement_node subject st).2).1
        = Term.uri (WDREF ++ sha1Hex (st.sha ++ utf8Encode v.toPyStr))
    ∧ (mint_reference_node v (mint_statement_node subject st).2).2.sha
        = st.sha ++ utf8Encode v.toPyStr
    ∧ ∀ k val : String, (k, val) ∈ refPairs rest →
        ∀ w : Term, handle_value val = HVResult.term w → w.truthy = true →
          ((mint_reference_node v (mint_statement_node subject st).2).1,
            Term.uri (PR ++ replaceSP k), w) ∈ rts := by
  refine ⟨?_, rfl, rfl, ?_⟩
  · simp only [convertStatement]
    rw [hsub, hpid, hv]
    simp only [htr, Bool.not_true, Bool.false_eq_true, if_false, hq]
    cases e : refPairs rest with
    | nil => exact absurd e hne
    | cons a l =>
      rw [e] at hrl
      simp only [hrl]
  · intro k val hm w hw htw
    exact referenceLoop_mem _ (refPairs rest) rts hrl k val hm w hw htw

/-- C7 witness: the end-to-end reference example `Q1 P31 Q5 S143 Q328`
mints one reference node keyed by the term for `Q5`, emits the provenance
triple, and emits `(refNode, pr:P143, wd:Q328)`. -/
theorem C7_reference_emission_witness :
    convertStatement ["Q1", "P31", "Q5", "S143", "Q328"] { uuids := ["u0"], sha := [] }
      = some ([(Term.uri (WD ++ "Q1"), Term.uri (P ++ "P31"),
                  (mint_statement_node "Q1" { uuids := ["u0"], sha := [] }).1),
               ((mint_statement_node "Q1" { uuids := ["u0"], sha := [] }).1,
                  Term.uri (PS ++ "P31"), Term.uri (WD ++ "Q5"))]
              ++ []
              ++ ((mint_statement_node "Q1" { uuids := ["u0"], sha := [] }).1,
                    Term.uri (PROV ++ "wasDerivedFrom"),
                    (mint_reference_node (Term.uri (WD ++ "Q5"))
                      (mint_statement_node "Q1" { uuids := ["u0"], sha := [] }).2).1)
                :: [((mint_reference_node (Term.uri (WD ++ "Q5"))
                      (mint_statement_node "Q1" { uuids := ["u0"], sha := [] }).2).1,
                    Term.uri (PR ++ "P143"), Term.uri (WD ++ "Q328"))],
              (mint_reference_node (Term.uri (WD ++ "Q5"))
                (mint_statement_node "Q1" { uuids := ["u0"], sha := [] }).2).2)
    ∧ ((mint_reference_node (Term.uri (WD ++ "Q5"))
          (mint_statement_node "Q1" { uuids := ["u0"], sha := [] }).2).1,
        Term.uri (PR ++ replaceSP "S143"), Term.uri (WD ++ "Q328"))
      ∈ [((mint_reference_node (Term.uri (WD ++ "Q5"))
            (mint_statement_node "Q1" { uuids := ["u0"], sha := [] }).2).1,
          Term.uri (PR ++ "P143"), Term.uri (WD ++ "Q328"))] := by
  have h := C7_reference_emission "Q1" "P31" "Q5" ["S143", "Q328"]
    { uuids := ["u0"], sha := [] } (Term.uri (WD ++ "Q5")) []
    [((mint_reference_node (Term.uri (WD ++ "Q5"))
        (mint_statement_node "Q1" { uuids := ["u0"], sha := [] }).2).1,
      Term.uri (PR ++ "P143"), Term.uri (WD ++ "Q328"))]
    (by decide) (by decide) (by decide) (by decide) (by decide) (by decide) (by decide)
  exact ⟨h.1, h.2.2.2 "S143" "Q328" (by decide) (Term.uri (WD ++ "Q328"))
    (by decide) (by decide)⟩

/-! ## Claim C8 -/

/-- C8: a line with fewer than three tab-separated fields, or whose field 0
fails the `Q\d+` shape, or whose field 1 fails the `P\d+` shape, adds zero
triples, leaves the run state unchanged, and processing continues with the
remaining lines as if the line were absent. -/
theorem C8_invalid_line_skipped (line : String) (ls : List String) (st : RunState)
    (h : (lineElements line).length < 3
      ∨ ITEM_match ((lineElements line).getD 0 "") = false
      ∨ PROPERTY_match ((lineElements line).getD 1 "") = false) :
    convertLine line st = some ([], st)
    ∧ convert (line :: ls) st = convert ls st := by
  have hA : convertLine line st = some ([], st) := by
    unfold convertLine
    rcases e : lineElements line with _ | ⟨a, _ | ⟨b, _ | ⟨c, r⟩⟩⟩
    · rfl
    · rfl
    · rfl
    · rw [e] at h
      rcases h with hlen | hI | hP
      · simp only [List.length_cons] at hlen
        omega
      · have hI2 : ITEM_match a = false := by simpa using hI
        simp [convertStatement, hI2]
      · have hP2 : PROPERTY_match b = false := by simpa using hP
        cases hI2 : ITEM_match a with
        | false => simp [convertStatement, hI2]
        | true => simp [convertStatement, hI2, hP2]
  refine ⟨hA, ?_⟩
  have hstep : convert (line :: ls) st
      = match convert ls st with
        | none => none
        | some rest => some ([] ++ rest) := by
    simp only [convert, hA]
  rw [hstep]
  cases hc : convert ls st with
  | none => rfl
  | some rest => simp

/-- C8 witness: the two-field line `Q1⟨tab⟩P31` yields no triples and the
run continues unchanged. -/
theorem C8_invalid_line_skipped_witness :
    convertLine "Q1\tP31" { uuids := ["u0"], sha := [] }
      = some ([], { uuids := ["u0"], sha := [] })
    ∧ convert ["Q1\tP31", "Q42\tP31\tQ5"] { uuids := ["u0"], sha := [] }
      = convert ["Q42\tP31\tQ5"] { uuids := ["u0"], sha := [] } :=
  C8_invalid_line_skipped "Q1\tP31" ["Q42\tP31\tQ5"] { uuids := ["u0"], sha := [] }
    (by decide)

/-! ## Claim C9 -/

/-- C9: a line with an odd number of fields after field 2 is processed
exactly like the same line without its trailing field: the pairing step
drops the unpaired field, which produces no triples and no error. -/
theorem C9_odd_trailing_field_dropped (elements : List String) (st : RunState)
    (h : (elements.length - 3) % 2 = 1) :
    convertStatement elements st = convertStatement elements.dropLast st := by
  rcases elements with _ | ⟨a, _ | ⟨b, _ | ⟨c, r⟩⟩⟩
  · simp at h
  · simp at h
  · simp at h
  · have hr : r.length % 2 = 1 := by
      simp only [List.length_cons] at h
      omega
    have hne : r ≠ [] := by
      intro e; rw [e] at hr; simp at hr
    obtain ⟨x, t, rfl⟩ : ∃ x t, r = x :: t := by
      cases r with
      | nil => exact absurd rfl hne
      | cons x t => exact ⟨x, t, rfl⟩
    show convertStatement (a :: b :: c :: x :: t) st
      = convertStatement (a :: b :: c :: (x :: t).dropLast) st
    have hqp : qualPairs (x :: t) = qualPairs ((x :: t).dropLast) := by
      unfold qualPairs
      rw [pairUp_dropLast (x :: t) hr]
    have hrp : refPairs (x :: t) = refPairs ((x :: t).dropLast) := by
      unfold refPairs
      rw [pairUp_dropLast (x :: t) hr]
    simp only [convertStatement, hqp, hrp]

/-- C9 witness: `Q1 P31 Q5 P17` (one unpaired trailing field) is processed
exactly like `Q1 P31 Q5`. -/
theorem C9_odd_trailing_field_dropped_witness :
    convertStatement ["Q1", "P31", "Q5", "P17"] { uuids := ["u0"], sha := [] }
      = convertStatement (["Q1", "P31", "Q5", "P17"] : List String).dropLast
          { uuids := ["u0"], sha := [] } :=
  C9_odd_trailing_field_dropped ["Q1", "P31", "Q5", "P17"]
    { uuids := ["u0"], sha := [] } (by decide)

/-- Every triple the qualifier loop emits has a truthy object: pairs whose
value classifies to a falsy term (such as the empty literal) are skipped. -/
theorem qualifierLoop_truthy (node : Term) :
    ∀ (prs : List (String × String)) (ts : List Triple),
      qualifierLoop node prs = some ts → ∀ t ∈ ts, t.2.2.truthy = true := by
  intro prs
  induction prs with
  | nil =>
    intro ts h t ht
    unfold qualifierLoop at h
    simp only [Option.some.injEq] at h
    rw [← h] at ht
    simp at ht
  | cons p rest ih =>
    intro ts h t ht
    obtain ⟨kp, vp⟩ := p
    unfold qualifierLoop at h
    cases hcls : handle_value vp with
    | crash => rw [hcls] at h; cases h
    | rejected => rw [hcls] at h; exact ih ts h t ht
    | term u =>
      rw [hcls] at h
      replace h :
          (if u.truthy = true then
            match qualifierLoop node rest with
            | none => none
            | some ts => some ((node, Term.uri (PQ ++ kp), u) :: ts)
          else qualifierLoop node rest) = some ts := h
      by_cases hut : u.truthy
      · rw [if_pos hut] at h
        cases hrest : qualifierLoop node rest with
        | none => rw [hrest] at h; cases h
        | some ts2 =>
          rw [hrest] at h
          simp only [Option.some.injEq] at h
          rw [← h] at ht
          rcases List.mem_cons.mp ht with rfl | ht2
          · exact hut
          · exact ih ts2 hrest t ht2
      · rw [if_neg hut] at h
        exact ih ts h t ht

/-- Every triple the reference loop emits has a truthy object: pairs whose
value classifies to a falsy term (such as the empty literal) are skipped. -/
theorem referenceLoop_truthy (node : Term) :
    ∀ (prs : List (String × String)) (ts : List Triple),
      referenceLoop node prs = some ts → ∀ t ∈ ts, t.2.2.truthy = true := by
  intro prs
  induction prs with
  | nil =>
    intro ts h t ht
    unfold referenceLoop at h
    simp only [Option.some.injEq] at h
    rw [← h] at ht
    simp at ht
  | cons p rest ih =>
    intro ts h t ht
    obtain ⟨kp, vp⟩ := p
    unfold referenceLoop at h
    cases hcls : handle_value vp with
    | crash => rw [hcls] at h; cases h
    | rejected => rw [hcls] at h; exact ih ts h t ht
    | term u =>
      rw [hcls] at h
      replace h :
          (if u.truthy = true then
            match referenceLoop node rest with
            | none => none
            | some ts => some ((node, Term.uri (PR ++ replaceSP kp), u) :: ts)
          else referenceLoop node rest) = some ts := h
      by_cases hut : u.truthy
      · rw [if_pos hut] at h
        cases hrest : referenceLoop node rest with
        | none => rw [hrest] at h; cases h
        | some ts2 =>
          rw [hrest] at h
          simp only [Option.some.injEq] at h
          rw [← h] at ht
          rcases List.mem_cons.mp ht with rfl | ht2
          · exact hut
          · exact ih ts2 hrest t ht2
      · rw [if_neg hut] at h
        exact ih ts h t ht

/-! ## Claim C10 -/

/-- C10: a token classifying to the EMPTY plain literal (e.g. `""`) counts
as success for the classifier but as failure for the assembler's truthiness
test (`if not value`), because rdflib terms are `str` subclasses: an empty
main value skips the whole line with zero triples; a qualifier pair with
such a value contributes nothing (the line behaves as if the pair were
absent); a reference pair with such a value is skipped too — only the
reference-node minting and provenance triple, driven by the pair's
existence, still happen. -/
theorem C10_empty_literal_falsy (subject main_pid : String) (st : RunState)
    (hsub : ITEM_match subject = true) (hpid : PROPERTY_match main_pid = true) :
    handle_value "\"\"" = HVResult.term (Term.literal "" none none)
    ∧ (Term.literal "" none none).truthy = false
    ∧ convertStatement [subject, main_pid, "\"\""] st = some ([], st)
    ∧ (∀ (vtok : String) (v : Term) (k : String),
        handle_value vtok = HVResult.term v → v.truthy = true → headIs k 'P' = true →
        convertStatement [subject, main_pid, vtok, k, "\"\""] st
          = convertStatement [subject, main_pid, vtok] st)
    ∧ (∀ (vtok : String) (v : Term) (k : String),
        handle_value vtok = HVResult.term v → v.truthy = true → headIs k 'S' = true →
        convertStatement [subject, main_pid, vtok, k, "\"\""] st
          = some ([(Term.uri (WD ++ subject), Term.uri (P ++ main_pid),
                      (mint_statement_node subject st).1),
                   ((mint_statement_node subject st).1, Term.uri (PS ++ main_pid), v),
                   ((mint_statement_node subject st).1, Term.uri (PROV ++ "wasDerivedFrom"),
                      (mint_reference_node v (mint_statement_node subject st).2).1)],
                  (mint_reference_node v (mint_statement_node subject st).2).2))
    ∧ (∀ (node : Term) (prs : List (String × String)) (ts : List Triple),
        qualifierLoop node prs = some ts → ∀ t ∈ ts, t.2.2.truthy = true)
    ∧ (∀ (node : Term) (prs : List (String × String)) (ts : List Triple),
        referenceLoop node prs = some ts → ∀ t ∈ ts, t.2.2.truthy = true) := by
  have hempty : handle_value "\"\"" = HVResult.term (Term.literal "" none none) := by
    decide
  have hfalsy : (Term.literal "" none none).truthy = false := by decide
  refine ⟨hempty, hfalsy, ?_, ?_, ?_, qualifierLoop_truthy, referenceLoop_truthy⟩
  · simp only [convertStatement]
    rw [hsub, hpid, hempty]
    simp [hfalsy]
  · intro vtok v k hv htr hkP
    have hkS : headIs k 'S' = false := by
      unfold headIs at hkP ⊢
      cases e : k.data with
      | nil => rw [e] at hkP
      | cons x xs =>
        rw [e] at hkP
        have hx : x = 'P' := by simpa using hkP
        simp [hx]
    have hq1 : qualPairs [k, "\"\""] = [(k, "\"\"")] := by
      simp [qualPairs, pairUp, hkP]
    have hr1 : refPairs [k, "\"\""] = [] := by
      simp [refPairs, pairUp, hkS]
    have hloop : qualifierLoop (mint_statement_node subject st).1 [(k, "\"\"")]
        = some [] := by
      simp [qualifierLoop, hempty, hfalsy]
    simp only [convertStatement]
    rw [hsub, hpid, hv]
    simp only [htr, Bool.not_true, Bool.false_eq_true, if_false, hq1, hr1, hloop]
    rfl
  · intro vtok v k hv htr hkS
    have hkP : headIs k 'P' = false := by
      unfold headIs at hkS ⊢
      cases e : k.data with
      | nil => rw [e] at hkS
      | cons x xs =>
        rw [e] at hkS
        have hx : x = 'S' := by simpa using hkS
        simp [hx]
    have hq1 : qualPairs [k, "\"\""] = [] := by
      simp [qualPairs, pairUp, hkP]
    have hr1 : refPairs [k, "\"\""] = [(k, "\"\"")] := by
      simp [refPairs, pairUp, hkS]
    have hloop : referenceLoop (mint_reference_node v (mint_statement_node subject st).2).1
        [(k, "\"\"")] = some [] := by
      simp [referenceLoop, hempty, hfalsy]
    simp only [convertStatement]
    rw [hsub, hpid, hv]
    simp only [htr, Bool.not_true, Bool.false_eq_true, if_false, hq1, hr1, hloop]
    simp [qualifierLoop]

/-- C10 witness: with subject `Q1` and property `P31`, the empty-quoted
token behaves as described for the main value, a qualifier pair `P17 ""`,
and a reference pair `S143 ""`. -/
theorem C10_empty_literal_falsy_witness :
    handle_value "\"\"" = HVResult.term (Term.literal "" none none)
    ∧ convertStatement ["Q1", "P31", "\"\""] { uuids := ["u0"], sha := [] }
        = some ([], { uuids := ["u0"], sha := [] })
    ∧ convertStatement ["Q1", "P31", "Q5", "P17", "\"\""] { uuids := ["u0"], sha := [] }
        = convertStatement ["Q1", "P31", "Q5"] { uuids := ["u0"], sha := [] }
    ∧ convertStatement ["Q1", "P31", "Q5", "S143", "\"\""] { uuids := ["u0"], sha := [] }
        = some ([(Term.uri (WD ++ "Q1"), Term.uri (P ++ "P31"),
                    (mint_statement_node "Q1" { uuids := ["u0"], sha := [] }).1),
                 ((mint_statement_node "Q1" { uuids := ["u0"], sha := [] }).1,
                    Term.uri (PS ++ "P31"), Term.uri (WD ++ "Q5")),
                 ((mint_statement_node "Q1" { uuids := ["u0"], sha := [] }).1,
                    Term.uri (PROV ++ "wasDerivedFrom"),
                    (mint_reference_node (Term.uri (WD ++ "Q5"))
                      (mint_statement_node "Q1" { uuids := ["u0"], sha := [] }).2).1)],
                (mint_reference_node (Term.uri (WD ++ "Q5"))
                  (mint_statement_node "Q1" { uuids := ["u0"], sha := [] }).2).2) := by
  have h := C10_empty_literal_falsy "Q1" "P31" { uuids := ["u0"], sha := [] }
    (by decide) (by decide)
  exact ⟨h.1, h.2.2.1,
    h.2.2.2.1 "Q5" (Term.uri (WD ++ "Q5")) "P17" (by decide) (by decide) (by decide),
    h.2.2.2.2.1 "Q5" (Term.uri (WD ++ "Q5")) "S143" (by decide) (by decide) (by decide)⟩
